import Mathlib

/-!
Shell completion emitters of awless (`cmd/autocompletion.go`).

A shallow embedding of `runCompletionBash` and `runCompletionZsh` together with the three text
constants they print, and the properties of the emitted byte stream.

The two functions only talk to collaborators that live outside the file:

* the process's standard output `os.Stdout` and cobra's `GenBashCompletion`.  What they do is an
  explicit parameter, `Env`, of the embedding: the outcome of every `Write` that `os.Stdout`
  receives, and the writes and the result of the introspector.  Nothing is assumed about them
  except where a statement says so.
* the buffered writer `bufio.NewWriter(os.Stdout)` and the in-memory `bytes.Buffer` of the Go
  standard library, which are embedded as the library defines them: a buffer of 4096 bytes that
  is written to `os.Stdout` when it overflows or is flushed, with a sticky error.
* the helper `exitOn` of package `cmd`, defined in another file; it is modelled from the
  specification (see `exitOn`).

Every call made on a collaborator is recorded in a trace, so that the order of the calls and the
failure paths can be stated.
-/

namespace Awless

/-! ## Bytes and strings -/

/-- A Go byte slice. -/
abbrev Bytes := List UInt8

/-- The Go conversion `[]byte(s)`: the UTF-8 encoding of the string. -/
def toBytes (s : String) : Bytes := s.toUTF8.data.toList

/-- A Go raw string literal that spans several source lines, given line by line (each item is one
source line, together with its newline when it has one). -/
def rawString (lines : List String) : String := lines.foldr (fun l r => l ++ r) ""

/-- The package constant boilerPlate (autocompletion.go, lines 11-25), the license header;
one list item per line of the Go raw string literal. -/
def boilerPlate : String :=
  rawString [
    "\n",
    "# Copyright 2016 The Kubernetes Authors.\n",
    "#\n",
    "# Licensed under the Apache License, Version 2.0 (the \"License\");\n",
    "# you may not use this file except in compliance with the License.\n",
    "# You may obtain a copy of the License at\n",
    "#\n",
    "#     http://www.apache.org/licenses/LICENSE-2.0\n",
    "#\n",
    "# Unless required by applicable law or agreed to in writing, software\n",
    "# distributed under the License is distributed on an \"AS IS\" BASIS,\n",
    "# WITHOUT WARRANTIES OR CONDITIONS OF ANY KIND, either express or implied.\n",
    "# See the License for the specific language governing permissions and\n",
    "# limitations under the License.\n"]

/-- The local string zshInitialization of runCompletionZsh (autocompletion.go, lines 81-211): the
zsh shim functions, the sed word-boundary detection, the converter function and the line that
opens the here-document; one list item per line of the Go raw string literal. -/
def zshInitialization : String :=
  rawString [
    "\n",
    "__awless_bash_source() \x7b\n",
    "\talias shopt=\x27:\x27\n",
    "\talias _expand=_bash_expand\n",
    "\talias _complete=_bash_comp\n",
    "\temulate -L sh\n",
    "\tsetopt kshglob noshglob braceexpand\n",
    "\tsource \"$@\"\n",
    "\x7d\n",
    "__awless_type() \x7b\n",
    "\t# -t is not supported by zsh\n",
    "\tif [ \"$1\" == \"-t\" ]; then\n",
    "\t\tshift\n",
    "\t\t# fake Bash 4 to disable \"complete -o nospace\". Instead\n",
    "\t\t# \"compopt +-o nospace\" is used in the code to toggle trailing\n",
    "\t\t# spaces. We don\x27t support that, but leave trailing spaces on\n",
    "\t\t# all the time\n",
    "\t\tif [ \"$1\" = \"__awless_compopt\" ]; then\n",
    "\t\t\techo builtin\n",
    "\t\t\treturn 0\n",
    "\t\tfi\n",
    "\tfi\n",
    "\ttype \"$@\"\n",
    "\x7d\n",
    "__awless_compgen() \x7b\n",
    "\tlocal completions w\n",
    "\tcompletions=( $(compgen \"$@\") ) || return $?\n",
    "\t# filter by given word as prefix\n",
    "\twhile [[ \"$1\" = -* && \"$1\" != -- ]]; do\n",
    "\t\tshift\n",
    "\t\tshift\n",
    "\tdone\n",
    "\tif [[ \"$1\" == -- ]]; then\n",
    "\t\tshift\n",
    "\tfi\n",
    "\tfor w in \"$\x7bcompletions[@]\x7d\"; do\n",
    "\t\tif [[ \"$\x7bw\x7d\" = \"$1\"* ]]; then\n",
    "\t\t\techo \"$\x7bw\x7d\"\n",
    "\t\tfi\n",
    "\tdone\n",
    "\x7d\n",
    "__awless_compopt() \x7b\n",
    "\ttrue # don\x27t do anything. Not supported by bashcompinit in zsh\n",
    "\x7d\n",
    "__awless_declare() \x7b\n",
    "\tif [ \"$1\" == \"-F\" ]; then\n",
    "\t\twhence -w \"$@\"\n",
    "\telse\n",
    "\t\tbuiltin declare \"$@\"\n",
    "\tfi\n",
    "\x7d\n",
    "__awless_ltrim_colon_completions()\n",
    "\x7b\n",
    "\tif [[ \"$1\" == *:* && \"$COMP_WORDBREAKS\" == *:* ]]; then\n",
    "\t\t# Remove colon-word prefix from COMPREPLY items\n",
    "\t\tlocal colon_word=$\x7b1%$\x7b1##*:\x7d\x7d\n",
    "\t\tlocal i=$\x7b#COMPREPLY[*]\x7d\n",
    "\t\twhile [[ $((--i)) -ge 0 ]]; do\n",
    "\t\t\tCOMPREPLY[$i]=$\x7bCOMPREPLY[$i]#\"$colon_word\"\x7d\n",
    "\t\tdone\n",
    "\tfi\n",
    "\x7d\n",
    "__awless_get_comp_words_by_ref() \x7b\n",
    "\tcur=\"$\x7bCOMP_WORDS[COMP_CWORD]\x7d\"\n",
    "\tprev=\"$\x7bCOMP_WORDS[$\x7bCOMP_CWORD\x7d-1]\x7d\"\n",
    "\twords=(\"$\x7bCOMP_WORDS[@]\x7d\")\n",
    "\tcword=(\"$\x7bCOMP_CWORD[@]\x7d\")\n",
    "\x7d\n",
    "__awless_filedir() \x7b\n",
    "\tlocal RET OLD_IFS w qw\n",
    "\t__debug \"_filedir $@ cur=$cur\"\n",
    "\tif [[ \"$1\" = \\~* ]]; then\n",
    "\t\t# somehow does not work. Maybe, zsh does not call this at all\n",
    "\t\teval echo \"$1\"\n",
    "\t\treturn 0\n",
    "\tfi\n",
    "\tOLD_IFS=\"$IFS\"\n",
    "\tIFS=$\x27\\n\x27\n",
    "\tif [ \"$1\" = \"-d\" ]; then\n",
    "\t\tshift\n",
    "\t\tRET=( $(compgen -d) )\n",
    "\telse\n",
    "\t\tRET=( $(compgen -f) )\n",
    "\tfi\n",
    "\tIFS=\"$OLD_IFS\"\n",
    "\tIFS=\",\" __debug \"RET=$\x7bRET[@]\x7d len=$\x7b#RET[@]\x7d\"\n",
    "\tfor w in $\x7bRET[@]\x7d; do\n",
    "\t\tif [[ ! \"$\x7bw\x7d\" = \"$\x7bcur\x7d\"* ]]; then\n",
    "\t\t\tcontinue\n",
    "\t\tfi\n",
    "\t\tif eval \"[[ \\\"\\$\x7bw\x7d\\\" = *.$1 || -d \\\"\\$\x7bw\x7d\\\" ]]\"; then\n",
    "\t\t\tqw=\"$(__awless_quote \"$\x7bw\x7d\")\"\n",
    "\t\t\tif [ -d \"$\x7bw\x7d\" ]; then\n",
    "\t\t\t\tCOMPREPLY+=(\"$\x7bqw\x7d/\")\n",
    "\t\t\telse\n",
    "\t\t\t\tCOMPREPLY+=(\"$\x7bqw\x7d\")\n",
    "\t\t\tfi\n",
    "\t\tfi\n",
    "\tdone\n",
    "\x7d\n",
    "__awless_quote() \x7b\n",
    "    if [[ $1 == \\\x27* || $1 == \\\"* ]]; then\n",
    "        # Leave out first character\n",
    "        printf %q \"$\x7b1:1\x7d\"\n",
    "    else\n",
    "    \tprintf %q \"$1\"\n",
    "    fi\n",
    "\x7d\n",
    "autoload -U +X bashcompinit && bashcompinit\n",
    "# use word boundary patterns for BSD or GNU sed\n",
    "LWORD=\x27[[:<:]]\x27\n",
    "RWORD=\x27[[:>:]]\x27\n",
    "if sed --help 2>&1 | grep -q GNU; then\n",
    "\tLWORD=\x27\\<\x27\n",
    "\tRWORD=\x27\\>\x27\n",
    "fi\n",
    "__awless_convert_bash_to_zsh() \x7b\n",
    "\tsed \\\n",
    "\t-e \x27s/declare -F/whence -w/\x27 \\\n",
    "\t-e \x27s/local \\([a-zA-Z0-9_]*\\)=/local \\1; \\1=/\x27 \\\n",
    "\t-e \x27s/flags+=(\"\\(--.*\\)=\")/flags+=(\"\\1\"); two_word_flags+=(\"\\1\")/\x27 \\\n",
    "\t-e \x27s/must_have_one_flag+=(\"\\(--.*\\)=\")/must_have_one_flag+=(\"\\1\")/\x27 \\\n",
    "\t-e \"s/$\x7bLWORD\x7d_filedir$\x7bRWORD\x7d/__awless_filedir/g\" \\\n",
    "\t-e \"s/$\x7bLWORD\x7d_get_comp_words_by_ref$\x7bRWORD\x7d/__awless_get_comp_words_by_ref/g\" \\\n",
    "\t-e \"s/$\x7bLWORD\x7d__ltrim_colon_completions$\x7bRWORD\x7d/__awless_ltrim_colon_completions/g\" \\\n",
    "\t-e \"s/$\x7bLWORD\x7dcompgen$\x7bRWORD\x7d/__awless_compgen/g\" \\\n",
    "\t-e \"s/$\x7bLWORD\x7dcompopt$\x7bRWORD\x7d/__awless_compopt/g\" \\\n",
    "\t-e \"s/$\x7bLWORD\x7ddeclare$\x7bRWORD\x7d/__awless_declare/g\" \\\n",
    "\t-e \"s/\\\\\\$(type$\x7bRWORD\x7d/\\$(__awless_type/g\" \\\n",
    "\t<<\x27BASH_COMPLETION_EOF\x27\n"]

/-- The local string zshTail of runCompletionZsh (autocompletion.go, lines 218-222); one list item
per line of the Go raw string literal. -/
def zshTail : String :=
  rawString [
    "\n",
    "BASH_COMPLETION_EOF\n",
    "\x7d\n",
    "__awless_bash_source <(__awless_convert_bash_to_zsh)\n"]

/-! ## The collaborators -/

/-- A non-nil Go `error` value; a Go `error` is an `Option GoError`, `none` being `nil`. -/
structure GoError where
  msg : String
  deriving DecidableEq, Repr

/-- The `*cobra.Command` handed to a `RunE` function (only the fields set in this file). -/
structure Command where
  use : String
  short : String
  long : String
  deriving DecidableEq, Repr

/-- What one `Write(p)` call on `os.Stdout` does: `ok` writes every byte and returns a nil error,
`fail n e` writes only the first `n` bytes and returns the error `e`. -/
inductive WriteOutcome where
  | ok
  | fail (n : Nat) (e : GoError)
  deriving DecidableEq, Repr

/-- The behaviour of what the two emitters reach outside the Go standard library.

* `stdoutWrite i` is the outcome of the `i`-th `Write` call (counted from 0) that `os.Stdout`
  receives from the buffered writer;
* `genChunks` are the successive `Write` calls `RootCmd.GenBashCompletion` makes on the writer it
  is given, i.e. the bash completion text of the command tree, and `genErr` is the error it
  returns after them when none of these writes failed (`none` when generation succeeds). -/
structure Env where
  stdoutWrite : Nat → WriteOutcome
  genChunks : List Bytes
  genErr : Option GoError

/-- The two writers that occur in the file: `out`, the buffered writer on `os.Stdout`, and `buf`,
the `bytes.Buffer` allocated by `runCompletionZsh`. -/
inductive Target where
  | out
  | buf
  deriving DecidableEq, Repr

/-- One call made by an emitter or by the introspector. -/
inductive Event where
  | write (t : Target) (p : Bytes)
  | genBashCompletion (t : Target)
  | flush
  | fatal (e : GoError)
  deriving DecidableEq, Repr

/-- The buffer size of `bufio.NewWriter`. -/
def bufSize : Nat := 4096

/-- The state the emitters act on. -/
structure World where
  /-- bytes written to `os.Stdout` -/
  stdout : Bytes
  /-- number of `Write` calls `os.Stdout` has received -/
  stdoutWrites : Nat
  /-- bytes accepted by `out` and still in its buffer -/
  pending : Bytes
  /-- the sticky error of `out` -/
  err : Option GoError
  /-- content of the `bytes.Buffer` -/
  buf : Bytes
  /-- every call made so far, oldest first -/
  trace : List Event
  deriving DecidableEq, Repr

namespace World

/-- State right after `out := bufio.NewWriter(os.Stdout)`. -/
def init : World :=
  { stdout := [], stdoutWrites := 0, pending := [], err := none, buf := [], trace := [] }

/-- The statement `buf := new(bytes.Buffer)`: a fresh, empty in-memory buffer. -/
def newBuffer (w : World) : World := { w with buf := [] }

/-- A `Write(p)` call received by `os.Stdout`: the new state, the number of bytes written and
the error. -/
def stdoutWrite (env : Env) (p : Bytes) (w : World) : World × Nat × Option GoError :=
  match env.stdoutWrite w.stdoutWrites with
  | .ok =>
    ({ w with stdout := w.stdout ++ p, stdoutWrites := w.stdoutWrites + 1 }, p.length, none)
  | .fail n e =>
    ({ w with stdout := w.stdout ++ p.take n, stdoutWrites := w.stdoutWrites + 1 },
      min n p.length, some e)

/-- The method `Flush` of `bufio.Writer`: nothing happens once the writer has an error or when
the buffer is empty; otherwise the buffer is written to `os.Stdout`, and on an error the bytes
not written stay in the buffer and the error sticks. -/
def bufioFlush (env : Env) (w : World) : World × Option GoError :=
  match w.err with
  | some e => (w, some e)
  | none =>
    if w.pending.length = 0 then (w, none)
    else
      match (w.stdoutWrite env w.pending).2.2 with
      | some e =>
        ({ (w.stdoutWrite env w.pending).1 with
            pending := w.pending.drop (w.stdoutWrite env w.pending).2.1, err := some e }, some e)
      | none => ({ (w.stdoutWrite env w.pending).1 with pending := [] }, none)

/-- One round of the loop of the method `Write` of `bufio.Writer`: with an empty buffer `p` is
written to `os.Stdout` directly, else the buffer is filled up from `p` and flushed.  Returns
what is left of `p`. -/
def bufioRound (env : Env) (p : Bytes) (w : World) : Bytes × World :=
  if w.pending.length = 0 then
    (p.drop (w.stdoutWrite env p).2.1,
      { (w.stdoutWrite env p).1 with err := (w.stdoutWrite env p).2.2 })
  else
    (p.drop (bufSize - w.pending.length),
      ({ w with pending := w.pending ++ p.take (bufSize - w.pending.length) }.bufioFlush env).1)

/-- The loop of the method `Write` of `bufio.Writer`, run for at most the given number of
rounds: it goes on while `p` does not fit into the free part of the buffer and the writer has
no error. -/
def bufioLoop (env : Env) : Nat → Bytes → World → Bytes × World
  | 0, p, w => (p, w)
  | rounds + 1, p, w =>
    if bufSize - w.pending.length < p.length ∧ w.err = none then
      bufioLoop env rounds (bufioRound env p w).1 (bufioRound env p w).2
    else (p, w)

/-- The method `Write` of `bufio.Writer`: the loop (which ends within two rounds, see
`bufioLoop_rounds`), then the error if there is one, else the rest of `p` goes into the
buffer. -/
def bufioWrite (env : Env) (p : Bytes) (w : World) : World × Option GoError :=
  match (bufioLoop env 2 p w).2.err with
  | some e => ((bufioLoop env 2 p w).2, some e)
  | none =>
    ({ (bufioLoop env 2 p w).2 with
        pending := (bufioLoop env 2 p w).2.pending ++ (bufioLoop env 2 p w).1 }, none)

/-- A `Write(p)` call on writer `t`.  A `bytes.Buffer` accepts everything and returns a nil
error; `out` is the buffered writer on `os.Stdout`. -/
def write (env : Env) (t : Target) (p : Bytes) (w : World) : World × Option GoError :=
  match t with
  | .buf => ({ w with buf := w.buf ++ p, trace := w.trace ++ [.write .buf p] }, none)
  | .out => bufioWrite env p { w with trace := w.trace ++ [.write .out p] }

/-- The call `out.Flush()`; its error is dropped by the `defer` statement. -/
def flush (env : Env) (w : World) : World :=
  (bufioFlush env { w with trace := w.trace ++ [.flush] }).1

end World

/-- The writes of the introspector, in order, on the writer it was given: it stops at the first
write that fails and returns that error, and returns `genErr` after the last one. -/
def writeChunks (env : Env) (t : Target) : List Bytes → World → World × Option GoError
  | [], w => (w, env.genErr)
  | c :: cs, w =>
    match w.write env t c with
    | (w1, some e) => (w1, some e)
    | (w1, none) => writeChunks env t cs w1

/-- The call `RootCmd.GenBashCompletion(t)` of the cobra library. -/
def GenBashCompletion (env : Env) (t : Target) (w : World) : World × Option GoError :=
  writeChunks env t env.genChunks { w with trace := w.trace ++ [.genBashCompletion t] }

/-- How a call of `exitOn` ends. -/
inductive Control where
  | proceed (w : World)
  | terminated (w : World) (e : GoError)

/-- Modelled from the spec: exitOn, the fatal-error helper of package `cmd`, which is called by
both emitters and defined in another file of the repository.  The spec: "if the header write
fails, the process terminates immediately reporting the write error (fatal, not recovered)".
With a nil error the call returns; with a non-nil error the operation ends there with that
error and the rest of the caller is not executed.  For that early exit the spec keeps the
"guaranteed flush on all exit paths, including early failure" of the output buffer, so the
emitters run their deferred flush on it too. -/
def exitOn (err : Option GoError) (w : World) : Control :=
  match err with
  | none => .proceed w
  | some e => .terminated { w with trace := w.trace ++ [.fatal e] } e

/-- How a run of an emitter ends: the `RunE` function returns an error value, or the process
was terminated by `exitOn`. -/
inductive Outcome where
  | returned (err : Option GoError)
  | exited (e : GoError)
  deriving DecidableEq, Repr

/-- Whether the run ended by the `RunE` function returning. -/
def Outcome.hasReturned : Outcome → Bool
  | .returned _ => true
  | .exited _ => false

/-- A finished run: final state and outcome. -/
structure Run where
  world : World
  outcome : Outcome
  deriving DecidableEq, Repr

/-! ## The two emitters -/

/-- The function runCompletionBash (autocompletion.go, lines 68-74). -/
def runCompletionBash (env : Env) (_cmd : Command) (_args : List String) : Run :=
  -- out := bufio.NewWriter(os.Stdout)
  let w0 := World.init
  -- defer out.Flush()
  let deferred := World.flush env
  -- _, err := out.Write([]byte(boilerPlate))
  match w0.write env .out (toBytes boilerPlate) with
  | (w1, err) =>
    -- exitOn(err)
    match exitOn err w1 with
    -- the fatal exit; the spec has the output buffer flushed "on all exit paths, including
    -- early failure"
    | .terminated w e => { world := deferred w, outcome := .exited e }
    | .proceed w2 =>
      -- return RootCmd.GenBashCompletion(out)
      match GenBashCompletion env .out w2 with
      | (w3, r) => { world := deferred w3, outcome := .returned r }

/-- The function runCompletionZsh (autocompletion.go, lines 76-225). -/
def runCompletionZsh (env : Env) (_cmd : Command) (_args : List String) : Run :=
  -- out := bufio.NewWriter(os.Stdout)
  let w0 := World.init
  -- defer out.Flush()
  let deferred := World.flush env
  -- _, err := out.Write([]byte(boilerPlate))
  match w0.write env .out (toBytes boilerPlate) with
  | (w1, err) =>
    -- exitOn(err)
    match exitOn err w1 with
    -- the fatal exit; the spec has the output buffer flushed "on all exit paths, including
    -- early failure"
    | .terminated w e => { world := deferred w, outcome := .exited e }
    | .proceed w2 =>
      -- out.Write([]byte(zshInitialization))
      let w3 := (w2.write env .out (toBytes zshInitialization)).1
      -- buf := new(bytes.Buffer)
      let w4 := w3.newBuffer
      -- RootCmd.GenBashCompletion(buf)
      let w5 := (GenBashCompletion env .buf w4).1
      -- out.Write(buf.Bytes())
      let w6 := (w5.write env .out w5.buf).1
      -- out.Write([]byte(zshTail))
      let w7 := (w6.write env .out (toBytes zshTail)).1
      -- return nil
      { world := deferred w7, outcome := .returned none }

/-! ## Auxiliary notions used in the statements -/

/-- Concatenation of the chunks written by the introspector: its whole output. -/
def concat : List Bytes → Bytes
  | [] => []
  | c :: cs => c ++ concat cs

/-- The arguments of the `Write` calls received by `out`, in order. -/
def outWritesOf : List Event → List Bytes
  | [] => []
  | .write .out p :: es => p :: outWritesOf es
  | _ :: es => outWritesOf es

/-- The writers handed to the introspector, one per call of `GenBashCompletion`, in order. -/
def genCallsOf : List Event → List Target
  | [] => []
  | .genBashCompletion t :: es => t :: genCallsOf es
  | _ :: es => genCallsOf es

/-- Two states in which the buffered writer `out` and `os.Stdout` are the same. -/
def sameWriter (w v : World) : Prop :=
  w.stdout = v.stdout ∧ w.stdoutWrites = v.stdoutWrites ∧ w.pending = v.pending ∧ w.err = v.err

/-- State after the header write of either emitter: the header is in the buffer. -/
def afterHeader : World :=
  { World.init with
    pending := toBytes boilerPlate
    trace := [.write .out (toBytes boilerPlate)] }

/-- State of `runCompletionZsh` after the call of the introspector: header and preamble are in
the buffer of `out`, the introspector output is in the `bytes.Buffer`. -/
def zshAfterGen (env : Env) : World :=
  { World.init with
    pending := toBytes boilerPlate ++ toBytes zshInitialization
    buf := concat env.genChunks
    trace := [.write .out (toBytes boilerPlate), .write .out (toBytes zshInitialization),
        .genBashCompletion .buf] ++ env.genChunks.map (Event.write .buf) }

/-! ### Lines and the here-document -/

/-- The lines of a text: the runs of bytes between newline bytes (byte 10).  A text with `k`
newlines has `k + 1` lines, the last of which is not terminated and may be empty. -/
def splitLines : Bytes → List Bytes
  | [] => [[]]
  | c :: cs =>
    if c = 10 then [] :: splitLines cs
    else
      match splitLines cs with
      | [] => [[c]]
      | l :: ls => (c :: l) :: ls

/-- The text made of the given lines, each followed by a newline. -/
def unlines : List Bytes → Bytes
  | [] => []
  | l :: ls => l ++ 10 :: unlines ls

/-- The lines that follow the first line equal to `l`. -/
def linesAfter (l : Bytes) : List Bytes → List Bytes
  | [] => []
  | x :: xs => if x = l then xs else linesAfter l xs

/-- The lines that precede the first line equal to `l`. -/
def linesBefore (l : Bytes) : List Bytes → List Bytes
  | [] => []
  | x :: xs => if x = l then [] else x :: linesBefore l xs

/-- The line of `zshInitialization` that opens the here-document. -/
def heredocOpen : Bytes := toBytes "\t<<\x27BASH_COMPLETION_EOF\x27"

/-- The delimiter of the here-document. -/
def heredocDelim : Bytes := toBytes "BASH_COMPLETION_EOF"

/-- The body of the here-document of an emitted zsh script, as the shell delimits it: the lines
after the opening line up to, and without, the first line that is exactly the delimiter. -/
def heredocBody (script : Bytes) : Bytes :=
  unlines (linesBefore heredocDelim (linesAfter heredocOpen (splitLines script)))

/-- The lines of an emitted zsh script that follow the line closing the here-document. -/
def afterHeredoc (script : Bytes) : List Bytes :=
  linesAfter heredocDelim (linesAfter heredocOpen (splitLines script))

/-- Whether the first line equal to `l` is the last line of the list. -/
def endsAtFirst (l : Bytes) : List Bytes → Bool
  | [] => false
  | [x] => x == l
  | x :: y :: ys => x != l && endsAtFirst l (y :: ys)

/-! ### The shim table -/

/-- The bash-only builtins and helpers the zsh preamble provides shims for. -/
def bashBuiltins : List String :=
  ["compopt", "_filedir", "_get_comp_words_by_ref", "__ltrim_colon_completions", "compgen",
    "declare"]

/-- The shim name that belongs to a builtin: its name without leading underscores, behind a
single `__awless_`. -/
def shimName (name : String) : String :=
  "__awless_" ++ String.mk (name.data.dropWhile (fun c => c = '_'))

/-- The global sed rule, delimited by the word-boundary patterns, that rewrites a builtin to its
shim, as a line of the converter function. -/
def sedRule (name : String) : String :=
  "\t-e \"s/$\x7bLWORD\x7d" ++ name ++ "$\x7bRWORD\x7d/" ++ shimName name ++ "/g\" \\"

/-- Whether the lines contain a definition of the shell function `f`: a line `f() \x7b`, or a
line `f()` followed by a line `\x7b`. -/
def definesFunction (f : Bytes) : List Bytes → Bool
  | [] => false
  | [l] => l == f ++ toBytes "() \x7b"
  | l :: m :: rest =>
    l == f ++ toBytes "() \x7b" || (l == f ++ toBytes "()" && m == toBytes "\x7b") ||
      definesFunction f (m :: rest)

/-- The lines of the zsh preamble that precede the line opening the here-document. -/
def zshLines : List Bytes := linesBefore heredocOpen (splitLines (toBytes zshInitialization))

/-- The lines of the zsh preamble inside the converter function: those after its opening line
(and before the line opening the here-document). -/
def converterLines : List Bytes :=
  linesAfter (toBytes "__awless_convert_bash_to_zsh() \x7b") zshLines

/-! ### Concrete environments -/

/-- An environment in which every write on `os.Stdout` succeeds and the introspector writes the
given chunks and reports the given error. -/
def envOk (chunks : List Bytes) (genErr : Option GoError) : Env :=
  { stdoutWrite := fun _ => .ok, genChunks := chunks, genErr := genErr }

/-- An environment in which `os.Stdout` is broken: every write on it fails without writing a
byte. -/
def envBroken (chunks : List Bytes) : Env :=
  { stdoutWrite := fun _ => .fail 0 ⟨"broken pipe"⟩, genChunks := chunks, genErr := none }

/-- The command value of the `zsh` subcommand. -/
def zshAutocompleteCmd : Command :=
  { use := "zsh"
    short := "List users"
    long := rawString [
      "\n",
      "Output shell completion code for zsh.\n",
      "This command prints shell code which must be evaluated to provide interactive\n",
      "completion of awless commands.\n",
      "\t$ source <(awless completion zsh)\n",
      "[1] zsh completions are only supported in versions of zsh >= 5.2"] }

/-- The command value of the `bash` subcommand. -/
def bashAutocompleteCmd : Command :=
  { use := "bash"
    short := "Output shell completion code for bash"
    long := rawString [
      "\n",
      "Output shell completion code for bash.\n",
      "This command prints shell code which must be evaluated to provide interactive\n",
      "completion of awless commands.\n",
      "\t\t$ source <(awless completion bash)\n",
      "will load the awless completion code for bash. Note that this depends on the\n",
      "bash-completion framework. It must be sourced before sourcing the awless\n",
      "completion, e.g. on the Mac:\n",
      "\t\t$ brew install bash-completion\n",
      "\t\t$ source $(brew --prefix)/etc/bash_completion\n",
      "\t\t$ source <(awless completion bash)"] }

/-- The command value of the `completion` command group. -/
def autocompleteCmd : Command :=
  { use := "completion"
    short := "Output shell completion code for the given shell (bash or zsh)"
    long := "" }

/-! ## Lemmas about the buffered writer -/

theorem stdoutWrite_frame (env : Env) (p : Bytes) (w : World) :
    (w.stdoutWrite env p).1.trace = w.trace ∧ (w.stdoutWrite env p).1.buf = w.buf
    ∧ (w.stdoutWrite env p).1.pending = w.pending ∧ (w.stdoutWrite env p).1.err = w.err := by
  unfold World.stdoutWrite
  cases env.stdoutWrite w.stdoutWrites <;> exact ⟨rfl, rfl, rfl, rfl⟩

theorem stdoutWrite_result (env : Env) (p : Bytes) (w : World) :
    ((w.stdoutWrite env p).2.2 = none ∧ (w.stdoutWrite env p).2.1 = p.length)
    ∨ (w.stdoutWrite env p).2.2 ≠ none := by
  unfold World.stdoutWrite
  cases env.stdoutWrite w.stdoutWrites
  · exact Or.inl ⟨rfl, rfl⟩
  · exact Or.inr (by simp)

theorem bufioFlush_frame (env : Env) (w : World) :
    (w.bufioFlush env).1.trace = w.trace ∧ (w.bufioFlush env).1.buf = w.buf := by
  have hf := stdoutWrite_frame env w.pending w
  unfold World.bufioFlush
  cases w.err with
  | some e => exact ⟨rfl, rfl⟩
  | none =>
    by_cases hn : w.pending.length = 0
    · rw [if_pos hn]
      exact ⟨rfl, rfl⟩
    · rw [if_neg hn]
      cases (w.stdoutWrite env w.pending).2.2 <;> exact ⟨hf.1, hf.2.1⟩

/-- After a flush the buffer is empty or the writer has an error. -/
theorem bufioFlush_done (env : Env) (w : World) :
    (w.bufioFlush env).1.pending.length = 0 ∨ (w.bufioFlush env).1.err ≠ none := by
  unfold World.bufioFlush
  cases he : w.err with
  | some e => exact Or.inr (by simp [he])
  | none =>
    by_cases hn : w.pending.length = 0
    · rw [if_pos hn]
      exact Or.inl hn
    · rw [if_neg hn]
      cases (w.stdoutWrite env w.pending).2.2 with
      | none => exact Or.inl rfl
      | some e => exact Or.inr (by simp)

theorem bufioRound_frame (env : Env) (p : Bytes) (w : World) :
    (World.bufioRound env p w).2.trace = w.trace ∧ (World.bufioRound env p w).2.buf = w.buf := by
  unfold World.bufioRound
  by_cases hn : w.pending.length = 0
  · simp only [hn, if_true]
    exact ⟨(stdoutWrite_frame env p w).1, (stdoutWrite_frame env p w).2.1⟩
  · simp only [hn, if_false]
    exact bufioFlush_frame env _

theorem bufioLoop_frame (env : Env) (k : Nat) (p : Bytes) (w : World) :
    (World.bufioLoop env k p w).2.trace = w.trace ∧ (World.bufioLoop env k p w).2.buf = w.buf := by
  induction k generalizing p w with
  | zero => exact ⟨rfl, rfl⟩
  | succ k ih =>
    unfold World.bufioLoop
    split
    · have h1 := ih (World.bufioRound env p w).1 (World.bufioRound env p w).2
      have h2 := bufioRound_frame env p w
      exact ⟨h1.1.trans h2.1, h1.2.trans h2.2⟩
    · exact ⟨rfl, rfl⟩

theorem bufioWrite_frame (env : Env) (p : Bytes) (w : World) :
    (w.bufioWrite env p).1.trace = w.trace ∧ (w.bufioWrite env p).1.buf = w.buf := by
  have h := bufioLoop_frame env 2 p w
  unfold World.bufioWrite
  cases (World.bufioLoop env 2 p w).2.err <;> exact h

theorem bufioLoop_stop (env : Env) (k : Nat) (p : Bytes) (w : World)
    (h : ¬ (bufSize - w.pending.length < p.length ∧ w.err = none)) :
    World.bufioLoop env k p w = (p, w) := by
  cases k with
  | zero => rfl
  | succ k => simp only [World.bufioLoop, h, if_false]

/-- After a round that started with an empty buffer the loop is over: `p` was written to
`os.Stdout` entirely, or the writer has an error. -/
theorem bufioRound_direct (env : Env) (p : Bytes) (w : World) (hn : w.pending.length = 0) :
    ¬ (bufSize - (World.bufioRound env p w).2.pending.length <
        (World.bufioRound env p w).1.length ∧ (World.bufioRound env p w).2.err = none) := by
  unfold World.bufioRound
  simp only [hn, if_true]
  rcases stdoutWrite_result env p w with ⟨h1, h2⟩ | h
  · simp [h2]
  · simp [h]

/-- After a round that started with a filled buffer the buffer is empty or the writer has an
error. -/
theorem bufioRound_fill (env : Env) (p : Bytes) (w : World) (hn : ¬ w.pending.length = 0) :
    (World.bufioRound env p w).2.pending.length = 0 ∨ (World.bufioRound env p w).2.err ≠ none := by
  unfold World.bufioRound
  simp only [hn, if_false]
  exact bufioFlush_done env _

/-- Two rounds are enough: more rounds give the same result, so `bufioWrite` is the whole
loop of the library method. -/
theorem bufioLoop_rounds (env : Env) (k : Nat) (p : Bytes) (w : World) :
    World.bufioLoop env (k + 2) p w = World.bufioLoop env 2 p w := by
  by_cases hc : bufSize - w.pending.length < p.length ∧ w.err = none
  · have e1 : ∀ j, World.bufioLoop env (j + 1) p w =
        World.bufioLoop env j (World.bufioRound env p w).1 (World.bufioRound env p w).2 := by
      intro j
      simp only [World.bufioLoop, hc, and_self, if_true]
    rw [e1 (k + 1), e1 1]
    generalize hq : (World.bufioRound env p w).1 = q
    generalize hw2 : (World.bufioRound env p w).2 = w2
    by_cases hc2 : bufSize - w2.pending.length < q.length ∧ w2.err = none
    · have hn : ¬ w.pending.length = 0 := by
        intro hn
        have := bufioRound_direct env p w hn
        rw [hq, hw2] at this
        exact this hc2
      have hp : w2.pending.length = 0 := by
        rcases bufioRound_fill env p w hn with h | h
        · rw [hw2] at h; exact h
        · rw [hw2] at h; exact absurd hc2.2 h
      have e2 : ∀ j, World.bufioLoop env (j + 1) q w2 =
          World.bufioLoop env j (World.bufioRound env q w2).1 (World.bufioRound env q w2).2 := by
        intro j
        simp only [World.bufioLoop, hc2, and_self, if_true]
      rw [e2 k, e2 0, bufioLoop_stop env k _ _ (bufioRound_direct env q w2 hp),
        bufioLoop_stop env 0 _ _ (bufioRound_direct env q w2 hp)]
    · rw [bufioLoop_stop env _ q w2 hc2, bufioLoop_stop env _ q w2 hc2]
  · rw [bufioLoop_stop env _ p w hc, bufioLoop_stop env _ p w hc]

/-- A write that fits into the free part of the buffer only goes into the buffer. -/
theorem bufioWrite_fits (env : Env) (p : Bytes) (w : World) (he : w.err = none)
    (hfit : p.length ≤ bufSize - w.pending.length) :
    w.bufioWrite env p = ({ w with pending := w.pending ++ p }, none) := by
  have hs : World.bufioLoop env 2 p w = (p, w) :=
    bufioLoop_stop env 2 p w (fun h => absurd h.1 (Nat.not_lt.2 hfit))
  unfold World.bufioWrite
  rw [hs]
  simp only [he]

/-! ### When every write on `os.Stdout` succeeds -/

theorem stdoutWrite_ok (env : Env) (hw : ∀ i, env.stdoutWrite i = .ok) (p : Bytes) (w : World) :
    w.stdoutWrite env p =
      ({ w with stdout := w.stdout ++ p, stdoutWrites := w.stdoutWrites + 1 }, p.length, none) := by
  simp only [World.stdoutWrite, hw]

theorem bufioFlush_ok (env : Env) (hw : ∀ i, env.stdoutWrite i = .ok) (w : World)
    (he : w.err = none) :
    (w.bufioFlush env).1.err = none ∧ (w.bufioFlush env).1.stdout = w.stdout ++ w.pending
    ∧ (w.bufioFlush env).1.pending = [] := by
  unfold World.bufioFlush
  rw [he]
  by_cases hn : w.pending.length = 0
  · have hp : w.pending = [] := List.length_eq_zero.1 hn
    rw [if_pos hn]
    simp [he, hp]
  · rw [if_neg hn, stdoutWrite_ok env hw]
    simp [he]

theorem bufioRound_ok (env : Env) (hw : ∀ i, env.stdoutWrite i = .ok) (p : Bytes) (w : World)
    (he : w.err = none) :
    (World.bufioRound env p w).2.err = none
    ∧ (World.bufioRound env p w).2.stdout ++ (World.bufioRound env p w).2.pending ++
        (World.bufioRound env p w).1 = w.stdout ++ w.pending ++ p := by
  unfold World.bufioRound
  by_cases hn : w.pending.length = 0
  · have hp : w.pending = [] := List.length_eq_zero.1 hn
    rw [if_pos hn, stdoutWrite_ok env hw]
    simp [hp]
  · rw [if_neg hn]
    obtain ⟨h1, h2, h3⟩ := bufioFlush_ok env hw
      { w with pending := w.pending ++ p.take (bufSize - w.pending.length) } he
    refine ⟨h1, ?_⟩
    rw [h2, h3]
    simp

theorem bufioLoop_ok (env : Env) (hw : ∀ i, env.stdoutWrite i = .ok) (k : Nat) (p : Bytes)
    (w : World) (he : w.err = none) :
    (World.bufioLoop env k p w).2.err = none
    ∧ (World.bufioLoop env k p w).2.stdout ++ (World.bufioLoop env k p w).2.pending ++
        (World.bufioLoop env k p w).1 = w.stdout ++ w.pending ++ p := by
  induction k generalizing p w with
  | zero => exact ⟨he, rfl⟩
  | succ k ih =>
    unfold World.bufioLoop
    split
    · obtain ⟨h1, h2⟩ := bufioRound_ok env hw p w he
      obtain ⟨h3, h4⟩ := ih (World.bufioRound env p w).1 (World.bufioRound env p w).2 h1
      exact ⟨h3, h4.trans h2⟩
    · exact ⟨he, rfl⟩

theorem bufioWrite_ok (env : Env) (hw : ∀ i, env.stdoutWrite i = .ok) (p : Bytes) (w : World)
    (he : w.err = none) :
    (w.bufioWrite env p).2 = none ∧ (w.bufioWrite env p).1.err = none
    ∧ (w.bufioWrite env p).1.stdout ++ (w.bufioWrite env p).1.pending =
        w.stdout ++ w.pending ++ p := by
  obtain ⟨h1, h2⟩ := bufioLoop_ok env hw 2 p w he
  unfold World.bufioWrite
  rw [h1]
  refine ⟨rfl, h1, ?_⟩
  simpa [List.append_assoc] using h2

/-! ## Lemmas about the calls of the emitters -/

theorem write_buf_eq (env : Env) (p : Bytes) (w : World) :
    w.write env .buf p =
      ({ w with buf := w.buf ++ p, trace := w.trace ++ [.write .buf p] }, none) := rfl

theorem write_out_frame (env : Env) (p : Bytes) (w : World) :
    (w.write env .out p).1.trace = w.trace ++ [.write .out p]
    ∧ (w.write env .out p).1.buf = w.buf :=
  bufioWrite_frame env p { w with trace := w.trace ++ [.write .out p] }

theorem write_out_fits (env : Env) (p : Bytes) (w : World) (he : w.err = none)
    (hfit : p.length ≤ bufSize - w.pending.length) :
    w.write env .out p =
      ({ w with pending := w.pending ++ p, trace := w.trace ++ [.write .out p] }, none) :=
  bufioWrite_fits env p { w with trace := w.trace ++ [.write .out p] } he hfit

theorem write_out_ok (env : Env) (hw : ∀ i, env.stdoutWrite i = .ok) (p : Bytes) (w : World)
    (he : w.err = none) :
    (w.write env .out p).2 = none ∧ (w.write env .out p).1.err = none
    ∧ (w.write env .out p).1.stdout ++ (w.write env .out p).1.pending =
        w.stdout ++ w.pending ++ p :=
  bufioWrite_ok env hw p { w with trace := w.trace ++ [.write .out p] } he

theorem flush_trace (env : Env) (w : World) :
    (w.flush env).trace = w.trace ++ [.flush] :=
  (bufioFlush_frame env { w with trace := w.trace ++ [.flush] }).1

theorem flush_buf (env : Env) (w : World) : (w.flush env).buf = w.buf :=
  (bufioFlush_frame env { w with trace := w.trace ++ [.flush] }).2

theorem flush_ok (env : Env) (hw : ∀ i, env.stdoutWrite i = .ok) (w : World)
    (he : w.err = none) :
    (w.flush env).stdout = w.stdout ++ w.pending ∧ (w.flush env).pending = [] :=
  (bufioFlush_ok env hw { w with trace := w.trace ++ [.flush] } he).2

/-- After the deferred flush the buffer of `out` is empty or `out` has an error. -/
theorem flush_done (env : Env) (w : World) :
    (w.flush env).pending.length = 0 ∨ (w.flush env).err ≠ none :=
  bufioFlush_done env { w with trace := w.trace ++ [.flush] }

theorem writeChunks_buf (env : Env) (cs : List Bytes) (w : World) :
    writeChunks env .buf cs w =
      ({ w with buf := w.buf ++ concat cs,
                trace := w.trace ++ cs.map (Event.write .buf) }, env.genErr) := by
  induction cs generalizing w with
  | nil => simp [writeChunks, concat]
  | cons c cs ih =>
    simp only [writeChunks, write_buf_eq, ih, concat, List.map_cons, List.append_assoc,
      List.singleton_append]

theorem writeChunks_trace (env : Env) (t : Target) (cs : List Bytes) (w : World) :
    ∃ k, (writeChunks env t cs w).1.trace = w.trace ++ (cs.take k).map (Event.write t) := by
  induction cs generalizing w with
  | nil => exact ⟨0, by simp [writeChunks]⟩
  | cons c cs ih =>
    cases t with
    | buf =>
      obtain ⟨k, hk⟩ := ih { w with buf := w.buf ++ c, trace := w.trace ++ [.write .buf c] }
      refine ⟨k + 1, ?_⟩
      simp only [writeChunks, write_buf_eq]
      rw [hk]
      simp
    | out =>
      have hf := (write_out_frame env c w).1
      unfold writeChunks
      rcases h : w.write env .out c with ⟨w1, _ | e⟩
      · obtain ⟨k, hk⟩ := ih w1
        refine ⟨k + 1, ?_⟩
        rw [h] at hf
        simp only at hf ⊢
        rw [hk, hf]
        simp
      · refine ⟨1, ?_⟩
        rw [h] at hf
        simp only at hf ⊢
        rw [hf]
        simp

theorem writeChunks_out_ok (env : Env) (hw : ∀ i, env.stdoutWrite i = .ok)
    (cs : List Bytes) (w : World) (he : w.err = none) :
    (writeChunks env .out cs w).2 = env.genErr
    ∧ (writeChunks env .out cs w).1.err = none
    ∧ (writeChunks env .out cs w).1.stdout ++ (writeChunks env .out cs w).1.pending =
        w.stdout ++ w.pending ++ concat cs := by
  induction cs generalizing w with
  | nil => simp [writeChunks, concat, he]
  | cons c cs ih =>
    obtain ⟨h1, h2, h3⟩ := write_out_ok env hw c w he
    unfold writeChunks
    rcases h : w.write env .out c with ⟨w1, r⟩
    rw [h] at h1 h2 h3
    simp only at h1 h2 h3
    subst h1
    simp only
    obtain ⟨i1, i2, i3⟩ := ih w1 h2
    refine ⟨i1, i2, ?_⟩
    rw [i3, h3]
    simp [concat]

theorem outWritesOf_append (xs ys : List Event) :
    outWritesOf (xs ++ ys) = outWritesOf xs ++ outWritesOf ys := by
  induction xs with
  | nil => rfl
  | cons e es ih =>
    cases e with
    | write t p => cases t <;> simp [outWritesOf, ih]
    | genBashCompletion t => simp [outWritesOf, ih]
    | flush => simp [outWritesOf, ih]
    | fatal e => simp [outWritesOf, ih]

theorem genCallsOf_append (xs ys : List Event) :
    genCallsOf (xs ++ ys) = genCallsOf xs ++ genCallsOf ys := by
  induction xs with
  | nil => rfl
  | cons e es ih => cases e <;> simp [genCallsOf, ih]

theorem outWritesOf_map_buf (cs : List Bytes) :
    outWritesOf (cs.map (Event.write .buf)) = [] := by
  induction cs with
  | nil => rfl
  | cons c cs ih => simp [outWritesOf, ih]

theorem genCallsOf_map_write (t : Target) (cs : List Bytes) :
    genCallsOf (cs.map (Event.write t)) = [] := by
  induction cs with
  | nil => rfl
  | cons c cs ih => simp [genCallsOf, ih]

/-! ## Lemmas about the two emitters -/

theorem boilerPlate_length : (toBytes boilerPlate).length = 588 := by decide!

theorem zshInitialization_length : (toBytes zshInitialization).length = 3238 := by decide!

/-- The header write of either emitter: the header fits into the fresh buffer, so the write
only fills the buffer and returns a nil error. -/
theorem header_write (env : Env) :
    World.init.write env .out (toBytes boilerPlate) = (afterHeader, none) := by
  have hfit : (toBytes boilerPlate).length ≤ bufSize - World.init.pending.length := by
    rw [boilerPlate_length]; decide
  rw [write_out_fits env _ _ rfl hfit]
  simp only [afterHeader, World.init, List.nil_append]

theorem bash_run (env : Env) (cmd : Command) (args : List String) :
    runCompletionBash env cmd args =
      { world := (GenBashCompletion env .out afterHeader).1.flush env,
        outcome := .returned (GenBashCompletion env .out afterHeader).2 } := by
  unfold runCompletionBash
  simp only []
  rw [header_write]
  simp only [exitOn]

/-- The preamble write of `runCompletionZsh`: the preamble still fits into the buffer behind
the header. -/
theorem preamble_write (env : Env) :
    afterHeader.write env .out (toBytes zshInitialization) =
      ({ afterHeader with
          pending := toBytes boilerPlate ++ toBytes zshInitialization
          trace := afterHeader.trace ++ [.write .out (toBytes zshInitialization)] }, none) := by
  have hfit : (toBytes zshInitialization).length ≤ bufSize - afterHeader.pending.length := by
    have hp : afterHeader.pending = toBytes boilerPlate := rfl
    rw [hp, boilerPlate_length, zshInitialization_length]; decide
  rw [write_out_fits env _ _ rfl hfit]
  simp only [afterHeader]

theorem zsh_after_gen (env : Env) :
    (GenBashCompletion env .buf
      (afterHeader.write env .out (toBytes zshInitialization)).1.newBuffer).1 =
      zshAfterGen env := by
  rw [preamble_write]
  simp only [GenBashCompletion, writeChunks_buf, World.newBuffer, zshAfterGen, afterHeader,
    World.init, List.nil_append, List.cons_append, List.append_assoc]

theorem zsh_run (env : Env) (cmd : Command) (args : List String) :
    runCompletionZsh env cmd args =
      { world := (((zshAfterGen env).write env .out (concat env.genChunks)).1.write env .out
          (toBytes zshTail)).1.flush env,
        outcome := .returned none } := by
  have hb : (zshAfterGen env).buf = concat env.genChunks := rfl
  unfold runCompletionZsh
  simp only []
  rw [header_write]
  simp only [exitOn]
  rw [zsh_after_gen, hb]

theorem zsh_trace (env : Env) (cmd : Command) (args : List String) :
    (runCompletionZsh env cmd args).world.trace =
      [.write .out (toBytes boilerPlate), .write .out (toBytes zshInitialization),
        .genBashCompletion .buf] ++ env.genChunks.map (Event.write .buf) ++
      [.write .out (concat env.genChunks), .write .out (toBytes zshTail), .flush] := by
  rw [zsh_run, flush_trace, (write_out_frame env _ _).1, (write_out_frame env _ _).1]
  simp [zshAfterGen]

theorem zsh_buf (env : Env) (cmd : Command) (args : List String) :
    (runCompletionZsh env cmd args).world.buf = concat env.genChunks := by
  rw [zsh_run, flush_buf, (write_out_frame env _ _).2, (write_out_frame env _ _).2]
  rfl

theorem bash_trace (env : Env) (cmd : Command) (args : List String) :
    ∃ k, (runCompletionBash env cmd args).world.trace =
      [.write .out (toBytes boilerPlate), .genBashCompletion .out] ++
        (env.genChunks.take k).map (Event.write .out) ++ [.flush] := by
  obtain ⟨k, hk⟩ := writeChunks_trace env .out env.genChunks
    { afterHeader with trace := afterHeader.trace ++ [.genBashCompletion .out] }
  refine ⟨k, ?_⟩
  rw [bash_run, flush_trace]
  simp only [GenBashCompletion]
  rw [hk]
  rfl

theorem zsh_stdout_ok (env : Env) (cmd : Command) (args : List String)
    (hw : ∀ i, env.stdoutWrite i = .ok) :
    (runCompletionZsh env cmd args).world.stdout =
        toBytes boilerPlate ++ toBytes zshInitialization ++ concat env.genChunks ++
          toBytes zshTail
    ∧ (runCompletionZsh env cmd args).world.pending = [] := by
  obtain ⟨-, a2, a3⟩ := write_out_ok env hw (concat env.genChunks) (zshAfterGen env) rfl
  obtain ⟨-, b2, b3⟩ := write_out_ok env hw (toBytes zshTail)
    ((zshAfterGen env).write env .out (concat env.genChunks)).1 a2
  obtain ⟨c1, c2⟩ := flush_ok env hw _ b2
  rw [zsh_run]
  refine ⟨?_, c2⟩
  show ((((zshAfterGen env).write env .out (concat env.genChunks)).1.write env .out
          (toBytes zshTail)).1.flush env).stdout = _
  rw [c1, b3, a3]
  simp only [zshAfterGen, World.init, List.nil_append]

theorem gen_out_ok (env : Env) (hw : ∀ i, env.stdoutWrite i = .ok) (w : World)
    (he : w.err = none) :
    (GenBashCompletion env .out w).2 = env.genErr
    ∧ (GenBashCompletion env .out w).1.err = none
    ∧ (GenBashCompletion env .out w).1.stdout ++ (GenBashCompletion env .out w).1.pending =
        w.stdout ++ w.pending ++ concat env.genChunks :=
  writeChunks_out_ok env hw env.genChunks
    { w with trace := w.trace ++ [.genBashCompletion .out] } he

theorem bash_stdout_ok (env : Env) (cmd : Command) (args : List String)
    (hw : ∀ i, env.stdoutWrite i = .ok) :
    (runCompletionBash env cmd args).world.stdout = toBytes boilerPlate ++ concat env.genChunks
    ∧ (runCompletionBash env cmd args).world.pending = []
    ∧ (runCompletionBash env cmd args).outcome = .returned env.genErr := by
  obtain ⟨a1, a2, a3⟩ := gen_out_ok env hw afterHeader rfl
  obtain ⟨c1, c2⟩ := flush_ok env hw _ a2
  rw [bash_run]
  refine ⟨?_, c2, ?_⟩
  · show ((GenBashCompletion env .out afterHeader).1.flush env).stdout = _
    rw [c1, a3]
    simp only [afterHeader, World.init, List.nil_append]
  · show Outcome.returned (GenBashCompletion env .out afterHeader).2 = _
    rw [a1]

/-! ### The result of a write depends on the writer only -/

theorem stdoutWrite_same (env : Env) (p : Bytes) (w v : World) (h : sameWriter w v) :
    sameWriter (w.stdoutWrite env p).1 (v.stdoutWrite env p).1
    ∧ (w.stdoutWrite env p).2 = (v.stdoutWrite env p).2 := by
  obtain ⟨h1, h2, h3, h4⟩ := h
  unfold World.stdoutWrite
  rw [h2]
  cases env.stdoutWrite v.stdoutWrites <;> simp [sameWriter, h1, h2, h3, h4]

theorem bufioFlush_same (env : Env) (w v : World) (h : sameWriter w v) :
    sameWriter (w.bufioFlush env).1 (v.bufioFlush env).1
    ∧ (w.bufioFlush env).2 = (v.bufioFlush env).2 := by
  obtain ⟨s1, s2⟩ := stdoutWrite_same env v.pending w v h
  have h' := h
  obtain ⟨h1, h2, h3, h4⟩ := h
  unfold World.bufioFlush
  rw [h4, h3]
  cases v.err with
  | some e => exact ⟨h', rfl⟩
  | none =>
    by_cases hn : v.pending.length = 0
    · rw [if_pos hn, if_pos hn]
      exact ⟨h', rfl⟩
    · rw [if_neg hn, if_neg hn, s2]
      obtain ⟨t1, t2, t3, t4⟩ := s1
      cases (v.stdoutWrite env v.pending).2.2 <;> simp [sameWriter, t1, t2, t4]

theorem bufioRound_same (env : Env) (p : Bytes) (w v : World) (h : sameWriter w v) :
    (World.bufioRound env p w).1 = (World.bufioRound env p v).1
    ∧ sameWriter (World.bufioRound env p w).2 (World.bufioRound env p v).2 := by
  obtain ⟨s1, s2⟩ := stdoutWrite_same env p w v h
  have h' := h
  obtain ⟨h1, h2, h3, h4⟩ := h
  unfold World.bufioRound
  rw [h3]
  by_cases hn : v.pending.length = 0
  · rw [if_pos hn, if_pos hn, s2]
    obtain ⟨t1, t2, t3, t4⟩ := s1
    exact ⟨rfl, t1, t2, t3, rfl⟩
  · rw [if_neg hn, if_neg hn]
    refine ⟨rfl, (bufioFlush_same env _ _ ?_).1⟩
    exact ⟨h1, h2, rfl, h4⟩

theorem bufioLoop_same (env : Env) (k : Nat) (p : Bytes) (w v : World) (h : sameWriter w v) :
    (World.bufioLoop env k p w).1 = (World.bufioLoop env k p v).1
    ∧ sameWriter (World.bufioLoop env k p w).2 (World.bufioLoop env k p v).2 := by
  induction k generalizing p w v with
  | zero => exact ⟨rfl, h⟩
  | succ k ih =>
    obtain ⟨r1, r2⟩ := bufioRound_same env p w v h
    have h' := h
    obtain ⟨h1, h2, h3, h4⟩ := h
    unfold World.bufioLoop
    rw [h3, h4]
    split
    · rw [r1]
      exact ih _ _ _ r2
    · exact ⟨rfl, h'⟩

theorem bufioWrite_same (env : Env) (p : Bytes) (w v : World) (h : sameWriter w v) :
    (w.bufioWrite env p).2 = (v.bufioWrite env p).2 := by
  obtain ⟨l1, -, -, -, l5⟩ := bufioLoop_same env 2 p w v h
  unfold World.bufioWrite
  rw [l5]
  cases (World.bufioLoop env 2 p v).2.err <;> rfl

/-- A write that does not fit behind a filled buffer fails when the write of the full buffer
on `os.Stdout` fails. -/
theorem bufioWrite_overflow_fail (env : Env) (p : Bytes) (w : World) (he : w.err = none)
    (hp : ¬ w.pending.length = 0) (hbig : bufSize - w.pending.length < p.length)
    (n : Nat) (e : GoError) (hf : env.stdoutWrite w.stdoutWrites = .fail n e) :
    (w.bufioWrite env p).2 = some e := by
  have hfl : (World.bufioFlush env
      { w with pending := w.pending ++ p.take (bufSize - w.pending.length) }).1.err =
      some e := by
    unfold World.bufioFlush
    have hne : ¬ (w.pending ++ p.take (bufSize - w.pending.length)).length = 0 := by
      rw [List.length_append]; omega
    simp only [he]
    rw [if_neg hne]
    simp [World.stdoutWrite, hf]
  have hr : (World.bufioRound env p w).2.err = some e := by
    unfold World.bufioRound
    rw [if_neg hp]
    exact hfl
  have hl : (World.bufioLoop env 2 p w).2.err = some e := by
    have e1 : World.bufioLoop env 2 p w =
        World.bufioLoop env 1 (World.bufioRound env p w).1 (World.bufioRound env p w).2 := by
      simp only [World.bufioLoop, hbig, he, and_self, if_true]
    rw [e1, bufioLoop_stop env 1 _ _ (by simp [hr])]
    exact hr
  unfold World.bufioWrite
  rw [hl]

theorem write_out_same (env : Env) (p : Bytes) (w v : World) (h : sameWriter w v) :
    (w.write env .out p).2 = (v.write env .out p).2 :=
  bufioWrite_same env p _ _ h

theorem writeChunks_first_fail (env : Env) (t : Target) (c : Bytes) (cs : List Bytes)
    (v : World) (e : GoError) (h : (v.write env t c).2 = some e) :
    (writeChunks env t (c :: cs) v).2 = some e := by
  unfold writeChunks
  rcases hw : v.write env t c with ⟨w1, r⟩
  rw [hw] at h
  simp only at h
  subst h
  rfl

/-- The introspector returns the error of its first write when that write fails. -/
theorem gen_first_write_fails (env : Env) (w : World) (c : Bytes) (cs : List Bytes)
    (e : GoError) (hc : env.genChunks = c :: cs) (h : (w.write env .out c).2 = some e) :
    (GenBashCompletion env .out w).2 = some e := by
  unfold GenBashCompletion
  rw [hc]
  apply writeChunks_first_fail
  rw [← h]
  exact write_out_same env c _ _ ⟨rfl, rfl, rfl, rfl⟩

/-! ## Lemmas about lines -/

theorem splitLines_ne_nil (b : Bytes) : splitLines b ≠ [] := by
  cases b with
  | nil => simp [splitLines]
  | cons c cs =>
    unfold splitLines
    split
    · simp
    · split <;> simp

theorem splitLines_append_newline (x y : Bytes) :
    splitLines (x ++ 10 :: y) = splitLines x ++ splitLines y := by
  induction x with
  | nil => simp [splitLines]
  | cons c cs ih =>
    by_cases hc : c = 10
    · simp [splitLines, hc, ih]
    · cases hs : splitLines cs with
      | nil => exact absurd hs (splitLines_ne_nil cs)
      | cons l ls => simp [splitLines, hc, ih, hs]

theorem unlines_splitLines (b : Bytes) : unlines (splitLines b) = b ++ [10] := by
  induction b with
  | nil => rfl
  | cons c cs ih =>
    by_cases hc : c = 10
    · simp [splitLines, hc, unlines, ih]
    · cases hs : splitLines cs with
      | nil => exact absurd hs (splitLines_ne_nil cs)
      | cons l ls =>
        rw [hs] at ih
        simp only [unlines] at ih
        simp [splitLines, hc, hs, unlines, ih]

theorem linesBefore_append (l : Bytes) (xs ys : List Bytes) (h : l ∉ xs) :
    linesBefore l (xs ++ l :: ys) = xs := by
  induction xs with
  | nil => simp [linesBefore]
  | cons x xs ih =>
    have hx : x ≠ l := fun e => h (e ▸ List.mem_cons_self _ _)
    have hxs : l ∉ xs := fun m => h (List.mem_cons_of_mem _ m)
    simp [linesBefore, hx, ih hxs]

theorem linesAfter_append (l : Bytes) (xs ys : List Bytes) (h : l ∉ xs) :
    linesAfter l (xs ++ l :: ys) = ys := by
  induction xs with
  | nil => simp [linesAfter]
  | cons x xs ih =>
    have hx : x ≠ l := fun e => h (e ▸ List.mem_cons_self _ _)
    have hxs : l ∉ xs := fun m => h (List.mem_cons_of_mem _ m)
    simp [linesAfter, hx, ih hxs]

theorem linesAfter_of_endsAtFirst (l : Bytes) (xs ys : List Bytes)
    (h : endsAtFirst l xs = true) : linesAfter l (xs ++ ys) = ys := by
  induction xs with
  | nil => simp [endsAtFirst] at h
  | cons x xs ih =>
    cases xs with
    | nil =>
      have hx : x = l := by simpa [endsAtFirst] using h
      simp [linesAfter, hx]
    | cons y zs =>
      simp only [endsAtFirst, Bool.and_eq_true, bne_iff_ne, ne_eq] at h
      rw [List.cons_append, linesAfter, if_neg h.1]
      exact ih h.2

/-- The lines of the script emitted by `runCompletionZsh` that follow the line opening the
here-document: the lines of the introspector output, then the lines of `zshTail`. -/
theorem linesAfter_open_output (b : Bytes) :
    linesAfter heredocOpen
        (splitLines (toBytes boilerPlate ++ toBytes zshInitialization ++ b ++ toBytes zshTail)) =
      splitLines b ++ [heredocDelim, toBytes "\x7d",
        toBytes "__awless_bash_source <(__awless_convert_bash_to_zsh)", []] := by
  have hlast : (toBytes zshInitialization).dropLast ++ [10] = toBytes zshInitialization :=
    List.dropLast_append_getLast? 10 (by decide!)
  have hpre : endsAtFirst heredocOpen
      (splitLines (toBytes boilerPlate ++ (toBytes zshInitialization).dropLast)) = true := by
    decide!
  have htail : toBytes zshTail = 10 :: (toBytes zshTail).tail := by decide!
  have hlines : splitLines (toBytes zshTail).tail = [heredocDelim, toBytes "\x7d",
      toBytes "__awless_bash_source <(__awless_convert_bash_to_zsh)", []] := by decide!
  have hsplit : toBytes boilerPlate ++ toBytes zshInitialization ++ b ++ toBytes zshTail =
      (toBytes boilerPlate ++ (toBytes zshInitialization).dropLast) ++
        10 :: (b ++ 10 :: (toBytes zshTail).tail) := by
    conv => lhs; rw [← hlast, htail]
    simp
  rw [hsplit, splitLines_append_newline, linesAfter_of_endsAtFirst _ _ _ hpre,
    splitLines_append_newline, hlines]


theorem zshInitialization_ends_with_open :
    toBytes "\t<<\x27BASH_COMPLETION_EOF\x27\n" <:+ toBytes zshInitialization := by
  have h : (toBytes zshInitialization).drop 3213 =
      toBytes "\t<<\x27BASH_COMPLETION_EOF\x27\n" := by decide!
  exact ⟨(toBytes zshInitialization).take 3213,
    (congrArg (fun t => (toBytes zshInitialization).take 3213 ++ t) h).symm.trans
      (List.take_append_drop 3213 (toBytes zshInitialization))⟩

theorem zshTail_starts_with_close :
    toBytes "\nBASH_COMPLETION_EOF\n" <+: toBytes zshTail := by
  have h : (toBytes zshTail).take 21 = toBytes "\nBASH_COMPLETION_EOF\n" := by decide!
  exact ⟨(toBytes zshTail).drop 21,
    (congrArg (fun t => t ++ (toBytes zshTail).drop 21) h).symm.trans
      (List.take_append_drop 21 (toBytes zshTail))⟩

theorem zsh_genCalls (env : Env) (cmd : Command) (args : List String) :
    genCallsOf (runCompletionZsh env cmd args).world.trace = [.buf] := by
  rw [zsh_trace]
  simp [genCallsOf_append, genCallsOf_map_write, genCallsOf]

theorem bash_flush_last (env : Env) (cmd : Command) (args : List String) :
    (runCompletionBash env cmd args).world.trace.getLast? = some .flush
    ∧ (runCompletionBash env cmd args).world.trace.count .flush = 1 := by
  obtain ⟨k, hk⟩ := bash_trace env cmd args
  have hnot : Event.flush ∉ (env.genChunks.take k).map (Event.write .out) := by
    intro h
    obtain ⟨c, -, hc⟩ := List.mem_map.1 h
    cases hc
  rw [hk]
  refine ⟨List.getLast?_concat _, ?_⟩
  rw [List.count_append, List.count_append, List.count_eq_zero_of_not_mem hnot]
  simp

theorem zsh_flush_last (env : Env) (cmd : Command) (args : List String) :
    (runCompletionZsh env cmd args).world.trace.getLast? = some .flush
    ∧ (runCompletionZsh env cmd args).world.trace.count .flush = 1 := by
  have hnot : Event.flush ∉ env.genChunks.map (Event.write .buf) := by
    intro h
    obtain ⟨c, -, hc⟩ := List.mem_map.1 h
    cases hc
  have hsplit : ∀ a b : Event, [a, b, Event.flush] = [a, b] ++ [Event.flush] := fun _ _ => rfl
  rw [zsh_trace, hsplit, ← List.append_assoc]
  refine ⟨List.getLast?_concat _, ?_⟩
  rw [List.count_append, List.count_append, List.count_append,
    List.count_eq_zero_of_not_mem hnot]
  simp

/-! ## The claims -/

/-- C1: when every write on standard output succeeds, standard output receives from
runCompletionZsh exactly boilerPlate, zshInitialization, the introspector output and zshTail, in
that order and with nothing left in the buffer; the introspector output is the unmodified
content of the in-memory buffer; zshInitialization ends with the line opening the
here-document and zshTail starts with the newline and the closing delimiter line; the
introspector is called exactly once, on the in-memory buffer.  This holds for every
introspector output, the empty one included. -/
theorem runCompletionZsh_output (env : Env) (cmd : Command) (args : List String)
    (hw : ∀ i, env.stdoutWrite i = .ok) :
    (runCompletionZsh env cmd args).world.stdout =
        toBytes boilerPlate ++ toBytes zshInitialization ++ concat env.genChunks ++
          toBytes zshTail
    ∧ (runCompletionZsh env cmd args).world.pending = []
    ∧ (runCompletionZsh env cmd args).world.buf = concat env.genChunks
    ∧ toBytes "\t<<\x27BASH_COMPLETION_EOF\x27\n" <:+ toBytes zshInitialization
    ∧ toBytes "\nBASH_COMPLETION_EOF\n" <+: toBytes zshTail
    ∧ genCallsOf (runCompletionZsh env cmd args).world.trace = [.buf] :=
  ⟨(zsh_stdout_ok env cmd args hw).1, (zsh_stdout_ok env cmd args hw).2, zsh_buf env cmd args,
    zshInitialization_ends_with_open, zshTail_starts_with_close, zsh_genCalls env cmd args⟩

/-- Witness of C1 on the empty introspector output. -/
theorem runCompletionZsh_output_witness :
    (runCompletionZsh (envOk [] none) zshAutocompleteCmd []).world.stdout =
        toBytes boilerPlate ++ toBytes zshInitialization ++ [] ++ toBytes zshTail
    ∧ genCallsOf (runCompletionZsh (envOk [] none) zshAutocompleteCmd []).world.trace = [.buf] :=
  ⟨(runCompletionZsh_output (envOk [] none) zshAutocompleteCmd [] (fun _ => rfl)).1,
    (runCompletionZsh_output (envOk [] none) zshAutocompleteCmd [] (fun _ => rfl)).2.2.2.2.2⟩

/-- C2: when every write on standard output succeeds, standard output receives from
runCompletionBash exactly boilerPlate followed by the introspector output, nothing is left in
the buffer, and in particular the output starts with the license header. -/
theorem runCompletionBash_output (env : Env) (cmd : Command) (args : List String)
    (hw : ∀ i, env.stdoutWrite i = .ok) :
    (runCompletionBash env cmd args).world.stdout = toBytes boilerPlate ++ concat env.genChunks
    ∧ (runCompletionBash env cmd args).world.pending = []
    ∧ toBytes boilerPlate <+: (runCompletionBash env cmd args).world.stdout := by
  refine ⟨(bash_stdout_ok env cmd args hw).1, (bash_stdout_ok env cmd args hw).2.1, ?_⟩
  rw [(bash_stdout_ok env cmd args hw).1]
  exact ⟨_, rfl⟩

/-- Witness of C2 on an introspector output written in two chunks. -/
theorem runCompletionBash_output_witness :
    (runCompletionBash (envOk [[35, 32], [97, 10]] none) bashAutocompleteCmd []).world.stdout =
        toBytes boilerPlate ++ [35, 32, 97, 10] :=
  (runCompletionBash_output (envOk [[35, 32], [97, 10]] none) bashAutocompleteCmd []
    (fun _ => rfl)).1

/-- C4: every run of either emitter ends by returning (the fatal exit after the header write is
never taken), with the deferred Flush as its last call, made exactly once, whatever standard
output and the introspector do; after it the buffer is empty unless the writer has an error,
and when the writes on standard output succeed nothing accepted is left in the buffer. -/
theorem flush_on_every_exit (env : Env) (cmd : Command) (args : List String) :
    (runCompletionBash env cmd args).outcome.hasReturned = true
    ∧ (runCompletionBash env cmd args).world.trace.getLast? = some .flush
    ∧ (runCompletionBash env cmd args).world.trace.count .flush = 1
    ∧ ((runCompletionBash env cmd args).world.pending.length = 0
        ∨ (runCompletionBash env cmd args).world.err ≠ none)
    ∧ (runCompletionZsh env cmd args).outcome.hasReturned = true
    ∧ (runCompletionZsh env cmd args).world.trace.getLast? = some .flush
    ∧ (runCompletionZsh env cmd args).world.trace.count .flush = 1
    ∧ ((runCompletionZsh env cmd args).world.pending.length = 0
        ∨ (runCompletionZsh env cmd args).world.err ≠ none)
    ∧ ((∀ i, env.stdoutWrite i = .ok) →
        (runCompletionBash env cmd args).world.pending = []
        ∧ (runCompletionZsh env cmd args).world.pending = []) := by
  refine ⟨?_, (bash_flush_last env cmd args).1, (bash_flush_last env cmd args).2, ?_, ?_,
    (zsh_flush_last env cmd args).1, (zsh_flush_last env cmd args).2, ?_, fun hw =>
    ⟨(bash_stdout_ok env cmd args hw).2.1, (zsh_stdout_ok env cmd args hw).2⟩⟩
  · rw [bash_run]; rfl
  · rw [bash_run]; exact flush_done env _
  · rw [zsh_run]; rfl
  · rw [zsh_run]; exact flush_done env _

/-- Witness of C4: a run with a working standard output leaves nothing in the buffer. -/
theorem flush_on_every_exit_witness :
    (runCompletionBash (envOk [[35, 10]] none) bashAutocompleteCmd []).world.pending = []
    ∧ (runCompletionZsh (envOk [[35, 10]] none) zshAutocompleteCmd []).world.pending = [] :=
  ⟨((flush_on_every_exit (envOk [[35, 10]] none) bashAutocompleteCmd []).2.2.2.2.2.2.2.2
      (fun _ => rfl)).1,
    ((flush_on_every_exit (envOk [[35, 10]] none) zshAutocompleteCmd []).2.2.2.2.2.2.2.2
      (fun _ => rfl)).2⟩

/-- C6: runCompletionZsh returns nil whatever the introspector reports and whatever the writes
on standard output and the flush do (the header write never fails); the bytes the introspector
put into the in-memory buffer are handed to the output between the preamble and the trailer,
and they reach standard output there when the writes succeed, also when the introspector
failed. -/
theorem runCompletionZsh_returns_nil (env : Env) (cmd : Command) (args : List String) :
    (runCompletionZsh env cmd args).outcome = .returned none
    ∧ (runCompletionZsh env cmd args).world.buf = concat env.genChunks
    ∧ outWritesOf (runCompletionZsh env cmd args).world.trace =
        [toBytes boilerPlate, toBytes zshInitialization, concat env.genChunks, toBytes zshTail]
    ∧ ((∀ i, env.stdoutWrite i = .ok) →
        (runCompletionZsh env cmd args).world.stdout =
          toBytes boilerPlate ++ toBytes zshInitialization ++ concat env.genChunks ++
            toBytes zshTail) := by
  refine ⟨?_, zsh_buf env cmd args, ?_, fun hw => (zsh_stdout_ok env cmd args hw).1⟩
  · rw [zsh_run]
  · rw [zsh_trace, outWritesOf_append, outWritesOf_append, outWritesOf_map_buf]
    rfl

/-- Witness of C6: the introspector fails after having written two bytes. -/
theorem runCompletionZsh_returns_nil_witness :
    (runCompletionZsh (envOk [[35, 32]] (some ⟨"generation failed"⟩)) zshAutocompleteCmd
        []).outcome = .returned none
    ∧ (runCompletionZsh (envOk [[35, 32]] (some ⟨"generation failed"⟩)) zshAutocompleteCmd
        []).world.stdout =
        toBytes boilerPlate ++ toBytes zshInitialization ++ [35, 32] ++ toBytes zshTail :=
  ⟨(runCompletionZsh_returns_nil (envOk [[35, 32]] (some ⟨"generation failed"⟩))
      zshAutocompleteCmd []).1,
    (runCompletionZsh_returns_nil (envOk [[35, 32]] (some ⟨"generation failed"⟩))
      zshAutocompleteCmd []).2.2.2 (fun _ => rfl)⟩

/-- C7: runCompletionBash returns exactly what the call of GenBashCompletion on the buffered
writer returns after the header write (which never fails): the introspector's own result when
the writes on standard output succeed (nil when it has no error of its own), and the error of
the introspector's first write when that write fails, which happens when its bytes do not fit
into the buffer behind the header and the write of the buffer on standard output fails. -/
theorem runCompletionBash_result (env : Env) (cmd : Command) (args : List String) :
    (runCompletionBash env cmd args).outcome =
        .returned (GenBashCompletion env .out
          (World.init.write env .out (toBytes boilerPlate)).1).2
    ∧ ((∀ i, env.stdoutWrite i = .ok) →
        (runCompletionBash env cmd args).outcome = .returned env.genErr)
    ∧ ((∀ i, env.stdoutWrite i = .ok) → env.genErr = none →
        (runCompletionBash env cmd args).outcome = .returned none)
    ∧ (∀ c cs e, env.genChunks = c :: cs →
        ((World.init.write env .out (toBytes boilerPlate)).1.write env .out c).2 = some e →
        (runCompletionBash env cmd args).outcome = .returned (some e))
    ∧ (∀ c cs n e, env.genChunks = c :: cs →
        bufSize < (toBytes boilerPlate).length + c.length →
        env.stdoutWrite 0 = .fail n e →
        (runCompletionBash env cmd args).outcome = .returned (some e)) := by
  have hb := bash_run env cmd args
  refine ⟨?_, fun hw => (bash_stdout_ok env cmd args hw).2.2, ?_, ?_, ?_⟩
  · rw [hb, header_write]
  · intro hw hg
    rw [(bash_stdout_ok env cmd args hw).2.2, hg]
  · intro c cs e hc h
    rw [header_write] at h
    rw [hb]
    exact congrArg Outcome.returned (gen_first_write_fails env _ c cs e hc h)
  · intro c cs n e hc hbig hf
    rw [hb]
    refine congrArg Outcome.returned (gen_first_write_fails env _ c cs e hc ?_)
    have hp : afterHeader.pending.length = 588 := boilerPlate_length
    rw [boilerPlate_length] at hbig
    refine bufioWrite_overflow_fail env c _ rfl ?_ ?_ n e hf
    · show ¬ afterHeader.pending.length = 0
      rw [hp]; decide
    · show bufSize - afterHeader.pending.length < c.length
      rw [hp]
      have : bufSize = 4096 := rfl
      omega

/-- Witness of C7: the introspector writes 5000 bytes at once on a broken standard output. -/
theorem runCompletionBash_result_witness :
    (runCompletionBash (envBroken [List.replicate 5000 35]) bashAutocompleteCmd []).outcome =
        .returned (some ⟨"broken pipe"⟩) :=
  (runCompletionBash_result (envBroken [List.replicate 5000 35]) bashAutocompleteCmd
    []).2.2.2.2 (List.replicate 5000 35) [] 0 ⟨"broken pipe"⟩ rfl
    (by rw [List.length_replicate]; exact Nat.lt_add_left _ (by decide)) rfl

/-- C10: runCompletionZsh never hands the output writer to the introspector; its calls are, in
this order: the header write, the preamble write, the call of the introspector on the
in-memory buffer with all its writes going to that buffer, one write of the whole collected
output to the output writer, the trailer write, and the flush. -/
theorem runCompletionZsh_call_order (env : Env) (cmd : Command) (args : List String) :
    Target.out ∉ genCallsOf (runCompletionZsh env cmd args).world.trace
    ∧ (runCompletionZsh env cmd args).world.trace =
        [.write .out (toBytes boilerPlate), .write .out (toBytes zshInitialization),
          .genBashCompletion .buf] ++ env.genChunks.map (Event.write .buf) ++
        [.write .out (concat env.genChunks), .write .out (toBytes zshTail), .flush] := by
  refine ⟨?_, zsh_trace env cmd args⟩
  rw [zsh_genCalls]
  simp

/-- Instance of C10: an introspector output written in two chunks. -/
theorem runCompletionZsh_call_order_witness :
    (runCompletionZsh (envOk [[35], [32, 10]] none) zshAutocompleteCmd []).world.trace =
        [.write .out (toBytes boilerPlate), .write .out (toBytes zshInitialization),
          .genBashCompletion .buf, .write .buf [35], .write .buf [32, 10],
          .write .out [35, 32, 10], .write .out (toBytes zshTail), .flush] :=
  (runCompletionZsh_call_order (envOk [[35], [32, 10]] none) zshAutocompleteCmd []).2

/-- C8: for each of compopt, _filedir, _get_comp_words_by_ref, __ltrim_colon_completions,
compgen and declare, the zsh preamble contains, before the line opening the here-document, a
shell function definition for its shim name (the name without leading underscores behind a
single `__awless_`), and, inside __awless_convert_bash_to_zsh, the global sed rule delimited by
the word-boundary patterns that rewrites the builtin to that shim name; the shim
`__awless_type` substituted by the last rule and the converter itself are defined there too. -/
theorem shims_defined_and_rewritten :
    (∀ name ∈ bashBuiltins,
      definesFunction (toBytes (shimName name)) zshLines = true
      ∧ toBytes (sedRule name) ∈ converterLines)
    ∧ definesFunction (toBytes "__awless_type") zshLines = true
    ∧ definesFunction (toBytes "__awless_convert_bash_to_zsh") zshLines = true := by
  decide!

/-- Witness of C8 on `_filedir`. -/
theorem shims_defined_and_rewritten_witness :
    "_filedir" ∈ bashBuiltins
    ∧ shimName "_filedir" = "__awless_filedir"
    ∧ definesFunction (toBytes (shimName "_filedir")) zshLines = true
    ∧ toBytes (sedRule "_filedir") ∈ converterLines :=
  ⟨by decide, by decide,
    (shims_defined_and_rewritten.1 "_filedir" (by decide)).1,
    (shims_defined_and_rewritten.1 "_filedir" (by decide)).2⟩

/-- C9: when every write succeeds and no line of the introspector output is exactly
BASH_COMPLETION_EOF, the first line after the opening line of the emitted zsh script that is
exactly the delimiter is the one of zshTail: the here-document body is the introspector output
followed by one newline, and the lines after the closing line are the rest of zshTail.  And
since nothing is escaped, an introspector output that contains such a line closes the
here-document early: what follows that line in the output lies outside the here-document. -/
theorem heredoc_integrity :
    (∀ (env : Env) (cmd : Command) (args : List String),
      (∀ i, env.stdoutWrite i = .ok) →
      heredocDelim ∉ splitLines (concat env.genChunks) →
      heredocBody (runCompletionZsh env cmd args).world.stdout = concat env.genChunks ++ [10]
      ∧ afterHeredoc (runCompletionZsh env cmd args).world.stdout =
          [toBytes "\x7d", toBytes "__awless_bash_source <(__awless_convert_bash_to_zsh)", []])
    ∧ heredocDelim ∈ splitLines (toBytes "x\nBASH_COMPLETION_EOF\ny")
    ∧ heredocBody (runCompletionZsh (envOk [toBytes "x\nBASH_COMPLETION_EOF\ny"] none)
          zshAutocompleteCmd []).world.stdout = toBytes "x\n"
    ∧ afterHeredoc (runCompletionZsh (envOk [toBytes "x\nBASH_COMPLETION_EOF\ny"] none)
          zshAutocompleteCmd []).world.stdout =
        [toBytes "y", heredocDelim, toBytes "\x7d",
          toBytes "__awless_bash_source <(__awless_convert_bash_to_zsh)", []] := by
  refine ⟨?_, by decide!, ?_, ?_⟩
  · intro env cmd args hw hb
    rw [(zsh_stdout_ok env cmd args hw).1]
    unfold heredocBody afterHeredoc
    rw [linesAfter_open_output, linesBefore_append _ _ _ hb, linesAfter_append _ _ _ hb,
      unlines_splitLines]
    exact ⟨rfl, rfl⟩
  · rw [(zsh_stdout_ok _ _ _ (fun _ => rfl)).1]
    unfold heredocBody
    rw [linesAfter_open_output]
    decide!
  · rw [(zsh_stdout_ok _ _ _ (fun _ => rfl)).1]
    unfold afterHeredoc
    rw [linesAfter_open_output]
    decide!

/-- Witness of C9: an introspector output of two lines without the delimiter. -/
theorem heredoc_integrity_witness :
    heredocDelim ∉ splitLines (concat (envOk [toBytes "a\n", toBytes "b"] none).genChunks)
    ∧ heredocBody (runCompletionZsh (envOk [toBytes "a\n", toBytes "b"] none)
        zshAutocompleteCmd []).world.stdout =
        concat (envOk [toBytes "a\n", toBytes "b"] none).genChunks ++ [10] :=
  ⟨by decide,
    (heredoc_integrity.1 (envOk [toBytes "a\n", toBytes "b"] none) zshAutocompleteCmd []
      (fun _ => rfl) (by decide)).1⟩

end Awless
